import Mathlib

/-!
# EOS32 file system check (`main.c`): shallow embedding and verified properties

The C program keeps its working data in global variables (the image handle, the
file-system geometry and the two tally tables).  The embedding collects them in
one record `State` that is passed explicitly through every function.  `exit(n)`
is the result `Res.exit n`; a function that recurses on image data takes a fuel
argument and answers `Res.fuel` when the fuel is used up.

Machine integers: `unsigned int` values are natural numbers reduced modulo
`2^32` wherever the C expression can wrap; the `int` counters of the tally
tables are integers (their increments are assumed not to overflow).

Outside the model are the sizes of the two tables (an index is not compared
with the table size, as in C), the range of `int`, and the size of the stack.
A theorem that says that a function returns therefore states as hypotheses
that the indices it uses are inside the tables and, where it depends on the
counters, that they stay in the range of `int`.  The fuel of the two recursive
functions counts nested calls: a run that answers `Res.fuel` at fuel `d` nests
deeper than `d` frames, so the fuel in such a theorem is the nesting depth
that the stack has to hold.
-/

namespace FsCheck

/-! ## Constants (`#define`s of `main.c`) -/

def SECTOR_SIZE : Nat := 512
def BLOCK_SIZE : Nat := 4096
def SPB : Nat := BLOCK_SIZE / SECTOR_SIZE
def NICINOD : Nat := 500
def NICFREE : Nat := 500
def INOPB : Nat := 64
def DIRPB : Nat := 64
def DIRSIZ : Nat := 60

def IFMT : Nat := 0o70000
def IFREG : Nat := 0o40000
def IFDIR : Nat := 0o30000
def IFCHR : Nat := 0o20000
def IFBLK : Nat := 0o10000
def IFFREE : Nat := 0o00000

/-- Modulus of `unsigned int` arithmetic. -/
def UINT : Nat := 2 ^ 32

/-! ## Data model -/

/-- A byte buffer (`unsigned char *`): offset to byte value. -/
abbrev Block := Nat → Fin 256

/-- The struct `blockCounter` of the source (two `int` fields). -/
structure bCounter_t where
  free : Int
  occupied : Int
deriving DecidableEq, Repr

/-- The struct `inoCounter` of the source (`int refs; char visited`). -/
structure iCounter_t where
  refs : Int
  visited : Int
deriving DecidableEq, Repr

/-- Ghost events, recorded to speak about which blocks and inodes were read. -/
inductive Event where
  | readBlock (blockNum : Nat)
  | readInode (inodeNumber : Nat)
  | checkDirectory (blockNumber : Nat)
deriving DecidableEq, Repr

/-- The global variables of the program.  `disk` is the image file: it maps an
absolute byte offset to the 4096 bytes that `fread` delivers from there, or to
`none` when the read is short.  `bCounter` and `inodeCounter` are the two
malloc'ed tables, addressed by index (the model does not bound the index, as C
does not).  `trace` is ghost state, newest event first. -/
structure State where
  disk : Nat → Option Block
  fsStart : Nat
  numBlocks : Nat
  inodeListSize : Nat
  bCounter : Nat → bCounter_t
  inodeCounter : Nat → iCounter_t
  trace : List Event

/-- Outcome of a function of the program: normal return, `exit(code)`, or the
model's fuel ran out. -/
inductive Res (α : Type) where
  | ok (a : α)
  | exit (code : Nat)
  | fuel
deriving DecidableEq, Repr

namespace Res

/-- Sequencing: an exit or lack of fuel ends the run. -/
def bind {α β : Type} (r : Res α) (f : α → Res β) : Res β :=
  match r with
  | ok a => f a
  | exit c => exit c
  | fuel => fuel

end Res

/-! ## Decoding and block input -/

/-- The function `get4Bytes` of the source, reading at offset `p` of the buffer. -/
def get4Bytes (addr : Block) (p : Nat) : Nat :=
  ((((addr p).val <<< 24) % UINT) |||
   (((addr (p + 1)).val <<< 16) % UINT) |||
   (((addr (p + 2)).val <<< 8) % UINT) |||
   (((addr (p + 3)).val <<< 0) % UINT))

/-- The seek offset of `readBlock`, in `unsigned int` arithmetic. -/
def blockOffset (fsStart blockNum : Nat) : Nat :=
  ((fsStart * SECTOR_SIZE) % UINT + (blockNum * BLOCK_SIZE) % UINT) % UINT

/-- The function `readBlock` of the source: exit 99 when the read fails. -/
def readBlock (blockNum : Nat) (st : State) : Res (Block × State) :=
  match st.disk (blockOffset st.fsStart blockNum) with
  | some buf => .ok (buf, { st with trace := Event.readBlock blockNum :: st.trace })
  | none => .exit 99

/-! ## Tally updates -/

/-- The statement `bCounter[b].occupied += 1`. -/
def incOccupied (b : Nat) (st : State) : State :=
  { st with bCounter := fun k =>
      if k = b then { st.bCounter k with occupied := (st.bCounter k).occupied + 1 }
      else st.bCounter k }

/-- The statement `bCounter[b].free += 1`.  The index is not compared with
`numBlocks` here, as in the source: a credit outside the table shows up as a
changed counter at that index. -/
def incFree (b : Nat) (st : State) : State :=
  { st with bCounter := fun k =>
      if k = b then { st.bCounter k with free := (st.bCounter k).free + 1 }
      else st.bCounter k }

/-- The statement `inodeCounter[n].refs++`.  The index is not compared with
the table size `inodeListSize * 64` here, as in the source. -/
def incRefs (n : Nat) (st : State) : State :=
  { st with inodeCounter := fun k =>
      if k = n then { st.inodeCounter k with refs := (st.inodeCounter k).refs + 1 }
      else st.inodeCounter k }

/-- The statement `inodeCounter[n].visited = 1`. -/
def setVisited (n : Nat) (st : State) : State :=
  { st with inodeCounter := fun k =>
      if k = n then { st.inodeCounter k with visited := 1 }
      else st.inodeCounter k }

/-! ## The block pass (`checkBlockCounter`) -/

/-- The four tests of the loop body of `checkBlockCounter` on the counters of
one block: the exit code of the first test that fires. -/
def blockVerdict (c : bCounter_t) : Option Nat :=
  let free := c.free
  let occupied := c.occupied
  if free = 0 ∧ occupied = 0 then some 10
  else if free = 1 ∧ occupied = 1 then some 11
  else if free > 1 then some 12
  else if occupied > 1 then some 13
  else none

/-- The `for` loop of `checkBlockCounter`, at loop variable `i`. -/
def checkBlockCounterLoop (st : State) : Nat → Nat → Res Unit
  | 0, _ => .fuel
  | fuel + 1, i =>
    if i < st.numBlocks then
      match blockVerdict (st.bCounter i) with
      | some code => .exit code
      | none => checkBlockCounterLoop st fuel (i + 1)
    else .ok ()

/-- The function `checkBlockCounter` of the source; the loop starts at 2 and
needs at most `numBlocks + 1` condition tests. -/
def checkBlockCounter (st : State) : Res Unit :=
  checkBlockCounterLoop st (st.numBlocks + 1) 2

/-! ## The inode sweep (`inspectInodes` and the block traversal) -/

/-- The loop body `blk = get4Bytes(p); p += 4; if(blk < numBlocks)
bCounter[blk].occupied += 1;`, run `n` times from offset `p`.  It is the loop of
`getDirectBlocks` and of `getSingleIndirectBlocks` and the inner loop of
`getDoubleIndirectBlocks`. -/
def occupiedLoop (buf : Block) : Nat → Nat → State → State
  | 0, _, st => st
  | n + 1, p, st =>
    let blk := get4Bytes buf p
    occupiedLoop buf n (p + 4) (if blk < st.numBlocks then incOccupied blk st else st)

/-- The function `getDirectBlocks` of the source, `p` an offset into `buf`. -/
def getDirectBlocks (buf : Block) (p : Nat) (st : State) : State :=
  occupiedLoop buf 6 p st

/-- The function `getSingleIndirectBlocks` of the source. -/
def getSingleIndirectBlocks (buf : Block) (p : Nat) (st : State) : Res State :=
  (readBlock (get4Bytes buf p) st).bind fun r =>
    .ok (occupiedLoop r.1 (BLOCK_SIZE / 4) 0 r.2)

/-- The outer loop of `getDoubleIndirectBlocks`, with `n` iterations left and
`p0` the read position in the first-level block.  On `continue` the position
is not advanced, as in the source. -/
def doubleIndirectLoop (indirectBlockBuffer : Block) : Nat → Nat → State → Res State
  | 0, _, st => .ok st
  | n + 1, p0, st =>
    let blk0 := get4Bytes indirectBlockBuffer p0
    if blk0 < st.numBlocks then
      (readBlock blk0 st).bind fun r =>
        doubleIndirectLoop indirectBlockBuffer n (p0 + 4)
          (occupiedLoop r.1 (BLOCK_SIZE / 4) 0 r.2)
    else doubleIndirectLoop indirectBlockBuffer n p0 st

/-- The function `getDoubleIndirectBlocks` of the source. -/
def getDoubleIndirectBlocks (buf : Block) (p : Nat) (st : State) : Res State :=
  (readBlock (get4Bytes buf p) st).bind fun r =>
    doubleIndirectLoop r.1 (BLOCK_SIZE / 4) 0 r.2

/-- The three traversal calls at the end of the slot body of `inspectInodes`,
`p` pointing at the first direct block number; returns the advanced `p`. -/
def inodeBlocks (buf : Block) (p : Nat) (st : State) : Res (Nat × State) :=
  let st := getDirectBlocks buf p st
  let p := p + 24
  (getSingleIndirectBlocks buf p st).bind fun st =>
    let p := p + 4
    (getDoubleIndirectBlocks buf p st).bind fun st =>
      let p := p + 4
      .ok (p, st)

/-- The C expression `a && b` as an `int`. -/
def logicalAnd (a b : Nat) : Nat := if a ≠ 0 ∧ b ≠ 0 then 1 else 0

/-- Conversion of an `int` to `unsigned int` (usual arithmetic conversions). -/
def toUnsigned (x : Int) : Nat := (x % (UINT : Int)).toNat

/-- The tally index `((i - 2) * INOPB) + j` of `inspectInodes`. -/
def slotIndex (i j : Nat) : Nat := ((i - 2) * INOPB + j) % UINT

/-- The four link-count tests of the slot body of `inspectInodes`
(lines 234 to 249): the exit code of the first test that fires. -/
def linkCheck (isFree nLink : Nat) (refs : Int) : Option Nat :=
  if nLink = 0 ∧ refs > 0 then some 15
  else if isFree = 0 ∧ nLink = 0 then some 16
  else if nLink ≠ toUnsigned refs then some 17
  else if isFree ≠ 0 ∧ refs ≠ 0 then some 19
  else none

/-- The body of the `for(j ...)` loop of `inspectInodes` for slot `j` of inode
block `i`, with `p` the read position in `blockBuffer`; returns the new `p`.
`checkMode` is an empty stub and `size` is read but not used. -/
def inodeSlot (i j : Nat) (blockBuffer : Block) (p : Nat) (st : State) : Res (Nat × State) :=
  if i = 2 ∧ j = 0 then .ok (p + 64, st)
  else
    let mode := get4Bytes blockBuffer p
    let p := p + 4
    let isFree : Nat := if mode ≠ 0 then 0 else 1
    if logicalAnd mode IFMT = IFCHR ∨ logicalAnd mode IFMT = IFBLK then .ok (p + 60, st)
    else
      let nLink := get4Bytes blockBuffer p
      let p := p + 24
      match linkCheck isFree nLink (st.inodeCounter (slotIndex i j)).refs with
      | some code => .exit code
      | none =>
        let p := p + 4
        inodeBlocks blockBuffer p st

/-- The `for(j = 0; j < INOPB; j++)` loop of `inspectInodes`. -/
def inodeSlotLoop (i : Nat) (blockBuffer : Block) : Nat → Nat → Nat → State → Res State
  | 0, _, _, st => .ok st
  | n + 1, j, p, st =>
    (inodeSlot i j blockBuffer p st).bind fun r =>
      inodeSlotLoop i blockBuffer n (j + 1) r.1 r.2

/-- The `while(i < inodeListSize)` loop of `inspectInodes`. -/
def inspectInodesLoop : Nat → Nat → State → Res State
  | 0, _, _ => .fuel
  | fuel + 1, i, st =>
    if i < st.inodeListSize then
      (readBlock i st).bind fun r =>
        (inodeSlotLoop i r.1 INOPB 0 0 (incOccupied i r.2)).bind fun st =>
          inspectInodesLoop fuel (i + 1) st
    else .ok st

/-! ## The free-list sweep -/

/-- The loop body `blk = get4Bytes(p); p += 4; if(blk < numBlocks)
bCounter[blk].free += 1;`, run `n` times from offset `p` (the `for(i = 1; i <
NICFREE; i++)` loops of `inspectFreelist` and `followLinkBlock`). -/
def freeLoop (buf : Block) : Nat → Nat → State → State
  | 0, _, st => st
  | n + 1, p, st =>
    let blk := get4Bytes buf p
    freeLoop buf n (p + 4) (if blk < st.numBlocks then incFree blk st else st)

/-- The function `followLinkBlock` of the source.  One unit of fuel is used
per nested call, that is per link block: every call keeps its own
`blockBuffer` of 4096 bytes on the stack until the calls below it return. -/
def followLinkBlock : Nat → Nat → State → Res State
  | 0, _, _ => .fuel
  | fuel + 1, link, st =>
    (readBlock link st).bind fun r =>
      let p := 4
      let linkBlk := get4Bytes r.1 p
      let p := p + 4
      let st := incFree link r.2
      let st := freeLoop r.1 (NICFREE - 1) p st
      if linkBlk > 0 then followLinkBlock fuel linkBlk st else .ok st

/-- The function `inspectFreelist` of the source. -/
def inspectFreelist (fuel : Nat) (st : State) : Res State :=
  (readBlock 1 st).bind fun r =>
    let p := 24 + 500 * 4 + 4
    let link := get4Bytes r.1 p
    let p := p + 4
    let st := incFree link r.2
    let st := freeLoop r.1 (NICFREE - 1) p st
    if link > 0 then followLinkBlock fuel link st else .ok st

/-- The function `inspectInodes` of the source: superblock, the sweep over
the inode blocks, then the free list. -/
def inspectInodes (fuel : Nat) (st : State) : Res State :=
  (readBlock 1 st).bind fun r =>
    let st := { r.2 with inodeListSize := get4Bytes r.1 8 }
    (inspectInodesLoop (st.inodeListSize + 1) 2 st).bind fun st =>
      inspectFreelist fuel st

/-! ## The directory walk -/

/-- Adds a ghost event to the trace. -/
def logEvent (e : Event) (st : State) : State :=
  { st with trace := e :: st.trace }

/-- The `for` loop of `checkDirectory` over the directory entries, `readInode`
being the function it calls on an unvisited inode. -/
def dirEntryLoop (readInode : Nat → State → Res State) (buf : Block) :
    Nat → Nat → State → Res State
  | 0, _, st => .ok st
  | n + 1, p, st =>
    let inode := get4Bytes buf p
    let st := incRefs inode st
    (if (st.inodeCounter inode).visited = 0 then readInode inode st else .ok st).bind fun st =>
      dirEntryLoop readInode buf n (p + 4 + DIRSIZ) st

/-- The body of `checkDirectory`. -/
def checkDirectoryBody (readInode : Nat → State → Res State) (blockNumber : Nat)
    (st : State) : Res State :=
  (readBlock blockNumber (logEvent (.checkDirectory blockNumber) st)).bind fun r =>
    dirEntryLoop readInode r.1 DIRPB 0 r.2

/-- The loops `blk = get4Bytes(p); p += 4; if(blk != 0) checkDirectory(blk);`
of `readInode` (direct blocks, single indirect block, inner double indirect
loop). -/
def dirBlockLoop (checkDirectory : Nat → State → Res State) (buf : Block) :
    Nat → Nat → State → Res State
  | 0, _, st => .ok st
  | n + 1, p, st =>
    let blk := get4Bytes buf p
    (if blk ≠ 0 then checkDirectory blk st else .ok st).bind fun st =>
      dirBlockLoop checkDirectory buf n (p + 4) st

/-- The outer loop of the double indirect part of `readInode`. -/
def doubleDirLoop (checkDirectory : Nat → State → Res State) (siBlockBuffer : Block) :
    Nat → Nat → State → Res State
  | 0, _, st => .ok st
  | n + 1, sip, st =>
    let blk := get4Bytes siBlockBuffer sip
    (readBlock blk st).bind fun r =>
      (dirBlockLoop checkDirectory r.1 (BLOCK_SIZE / 4) 0 r.2).bind fun st =>
        doubleDirLoop checkDirectory siBlockBuffer n (sip + 4) st

/-- The body of `readInode`, `checkDirectory` being the function it calls. -/
def readInodeBody (checkDirectory : Nat → State → Res State) (inodeNumber : Nat)
    (st : State) : Res State :=
  let block := (inodeNumber / INOPB) + 2
  let inode := inodeNumber % INOPB
  let st := setVisited inodeNumber (logEvent (.readInode inodeNumber) st)
  (readBlock block st).bind fun r =>
    let blockBuffer := r.1
    let p := inode * 64
    let mode := get4Bytes blockBuffer p
    if mode &&& IFMT ≠ IFDIR then .ok r.2
    else
      let p := p + 32
      (dirBlockLoop checkDirectory blockBuffer 6 p r.2).bind fun st =>
        let p := p + 24
        let blk := get4Bytes blockBuffer p
        let p := p + 4
        (if blk ≠ 0 then
            (readBlock blk st).bind fun r =>
              dirBlockLoop checkDirectory r.1 (BLOCK_SIZE / 4) 0 r.2
          else .ok st).bind fun st =>
          let blk := get4Bytes blockBuffer p
          if blk ≠ 0 then
            (readBlock blk st).bind fun r =>
              doubleDirLoop checkDirectory r.1 (BLOCK_SIZE / 4) 0 r.2
          else .ok st

/-- The function `checkDirectory` of the source.  One unit of fuel is used per
nesting level of the mutual recursion with `readInode`; a level keeps the
`blockBuffer` of `checkDirectory` and the three buffers of `readInode` on the
stack until the levels below it return. -/
def checkDirectory : Nat → Nat → State → Res State
  | 0, _, _ => .fuel
  | fuel + 1, blockNumber, st =>
    checkDirectoryBody (readInodeBody (checkDirectory fuel)) blockNumber st

/-- The function `readInode` of the source. -/
def readInode (fuel : Nat) (inodeNumber : Nat) (st : State) : Res State :=
  readInodeBody (checkDirectory fuel) inodeNumber st

/-- The function `getRootDir` of the source.  The `int mode` is masked with
`IFMT`, which only looks at bits 12 to 14, so the unsigned value serves. -/
def getRootDir (fuel : Nat) (st : State) : Res State :=
  (readBlock 2 st).bind fun r =>
    let p := 64
    let mode := get4Bytes r.1 p
    if mode &&& IFMT ≠ IFDIR then .exit 20
    else
      let p := p + 32
      let rootDirBlock := get4Bytes r.1 p
      let st := setVisited 1 r.2
      checkDirectory fuel rootDirBlock st

/-- Size of the struct `blockCounter` in bytes (two `int` of 4 bytes). -/
def sizeof_bCounter_t : Nat := 8

/-- Size of the struct `inoCounter` in bytes (`int`, `char`, padding). -/
def sizeof_iCounter_t : Nat := 8

/-- The function `initInodeCounter` of the source.  `malloc` tells whether a
request of that many bytes succeeds; when it fails the program exits with 6.
The table it allocates is not initialised, so the table of the state stays
what it is. -/
def initInodeCounter (malloc : Nat → Bool) (st : State) : Res State :=
  (readBlock 1 st).bind fun r =>
    let inodeListSize := get4Bytes r.1 8
    if malloc (sizeof_iCounter_t * inodeListSize * 64) then
      .ok { r.2 with inodeListSize := inodeListSize }
    else .exit 6

/-- The part of `main` after the partition has been selected: the allocation
of `bCounter` (exit 6 when it fails) and the four calls. -/
def runChecks (malloc : Nat → Bool) (fuel : Nat) (st : State) : Res Unit :=
  if malloc (sizeof_bCounter_t * st.numBlocks) then
    (initInodeCounter malloc st).bind fun st =>
      (getRootDir fuel st).bind fun st =>
        (inspectInodes fuel st).bind fun st =>
          checkBlockCounter st
  else .exit 6

/-! ## Auxiliary notions for the statements -/

namespace Res

/-- The run ends, if by `exit`, then only by the exit 99 of a failed read. -/
def onlyExit99 {α : Type} (r : Res α) : Prop := ∀ c, r = .exit c → c = 99

/-- An observation `f` of the result of a run. -/
def map {α β : Type} (f : α → β) : Res α → Res β
  | ok a => ok (f a)
  | exit c => exit c
  | fuel => fuel

end Res

/-! ## Concrete images and tables used as test inputs -/

/-- A block of zero bytes. -/
def zeroBlock : Block := fun _ => 0

/-- A state without image and with all tallies zero. -/
def emptyState : State :=
  { disk := fun _ => none, fsStart := 0, numBlocks := 0, inodeListSize := 0,
    bCounter := fun _ => ⟨0, 0⟩, inodeCounter := fun _ => ⟨0, 0⟩, trace := [] }

/-- Four blocks, block 2 free and block 3 occupied. -/
def cleanTable : State :=
  { emptyState with
    numBlocks := 4,
    bCounter := fun b => if b = 2 then ⟨1, 0⟩ else ⟨0, 1⟩ }

/-- Three blocks, block 2 twice on the free list and once in a file. -/
def doubleFreeInUse : State :=
  { emptyState with
    numBlocks := 3,
    bCounter := fun b => if b = 2 then ⟨2, 1⟩ else ⟨0, 1⟩ }

/-- One inode block (block 2) that was never credited, one good data block. -/
def uncreditedInodeBlock : State :=
  { emptyState with
    numBlocks := 4,
    inodeListSize := 1,
    bCounter := fun b => if b = 2 then ⟨0, 0⟩ else ⟨0, 1⟩ }

/-- An inode block whose slot 0 holds a regular file (mode 040000) with
`nlink = 2`. -/
def regularFileBlock : Block := fun o => if o = 2 then 0x40 else if o = 7 then 2 else 0

/-- Tallies in which the inode of slot 0 of block 3 (inode 64) has one
reference. -/
def oneReference : State :=
  { emptyState with
    inodeCounter := fun n => if n = 64 then ⟨1, 1⟩ else ⟨0, 0⟩ }

/-- An image in which only block 2 is readable; inode 1 (offset 64) is a
regular file. -/
def rootIsFile : State :=
  { emptyState with
    numBlocks := 8,
    disk := fun off => if off = 8192 then some (fun o => if o = 66 then 0x40 else 0) else none }

/-- An image of 8 blocks with one inode block (`inodeListSize = 1`, inodes 0
to 63, block 2 all zero) whose block 5 is a directory block of 64 empty
entries (inode field 0); all tallies are 0. -/
def emptyDirImage : State :=
  { emptyState with
    numBlocks := 8,
    inodeListSize := 1,
    disk := fun off =>
      if off = 8192 then some zeroBlock
      else if off = 20480 then some zeroBlock
      else none }

/-- An inode block whose slot 1 (inode 1, offset 64) is a regular file with
`nlink = 1` and all eight block pointers 0. -/
def emptyFileBlock : Block := fun o => if o = 66 then 0x40 else if o = 71 then 1 else 0

/-- An image of 8 blocks of which only the boot block is readable, filled
with bytes 0xFF; inode 1 has one reference; all block tallies are 0. -/
def bootOnlyImage : State :=
  { emptyState with
    numBlocks := 8,
    disk := fun off => if off = 0 then some (fun _ => 255) else none,
    inodeCounter := fun n => if n = 1 then ⟨1, 1⟩ else ⟨0, 0⟩ }

/-- A superblock whose free-list head link (offset 2028) is 4 and whose other
words are 0. -/
def superblockLink4 : Block := fun o => if o = 2031 then 4 else 0

/-- An image of 4 blocks (valid indices 0..3) whose superblock names block 4 as
head of the free list; the bytes behind the file system are readable zeros. -/
def linkPastEnd : State :=
  { emptyState with
    numBlocks := 4,
    disk := fun off =>
      if off = 4096 then some superblockLink4
      else if off = 16384 then some zeroBlock
      else none }

/-- An image of 8 blocks whose superblock gives `inodeListSize = 2` (inode
table in blocks 2 and 3) and an empty free list. -/
def twoInodeBlocks : State :=
  { emptyState with
    numBlocks := 8,
    disk := fun off =>
      if off = 4096 then some (fun o => if o = 11 then 2 else 0)
      else some zeroBlock }

/-! ## Inode location and further test images -/

/-- The block in which `readInode` looks for inode `inodeNumber` (line 469). -/
def inodeBlock (inodeNumber : Nat) : Nat := (inodeNumber / INOPB) + 2

/-- The byte offset at which `readInode` decodes inode `inodeNumber` in that
block (lines 471 and 485). -/
def inodeOffset (inodeNumber : Nat) : Nat := (inodeNumber % INOPB) * 64

/-- A partition that starts at sector 2^23 (byte 2^32) of an image whose only
readable position is byte 4096. -/
def farPartition : State :=
  { emptyState with
    fsStart := 8388608,
    numBlocks := 8,
    disk := fun off => if off = 4096 then some zeroBlock else none }

/-- An inode block whose slot 1 (offset 64) is a character-special inode
(mode 020000) with `nlink = 1` and the number 3 in its first direct field. -/
def charDeviceBlock : Block :=
  fun o => if o = 66 then 0x20 else if o = 71 then 1 else if o = 99 then 3 else 0

/-- An inode block whose slot 1 is a regular file with `nlink = 1` and
single-indirect pointer 5 (offset 64 + 56), all other pointers 0. -/
def singleIndirectInode : Block :=
  fun o => if o = 66 then 0x40 else if o = 71 then 1 else if o = 123 then 5 else 0

/-- An indirect block whose first word is 6 and whose other words are
0xFFFFFFFF. -/
def childList6 : Block := fun o => if o < 3 then 0 else if o = 3 then 6 else 255

/-- An image of 8 blocks: boot block filled with 0xFF, block 5 the indirect
block `childList6`; inode 1 has one reference, all block tallies are 0. -/
def indirectImage : State :=
  { emptyState with
    numBlocks := 8,
    disk := fun off =>
      if off = 0 then some (fun _ => 255)
      else if off = 20480 then some childList6
      else none,
    inodeCounter := fun n => if n = 1 then ⟨1, 1⟩ else ⟨0, 0⟩ }

/-- An inode block whose slot 1 is a regular file with `nlink = 1` and
double-indirect pointer 5 (offset 64 + 60), all other pointers 0. -/
def doubleIndirectInode : Block :=
  fun o => if o = 66 then 0x40 else if o = 71 then 1 else if o = 127 then 5 else 0

/-- A first-level block whose entry 0 is 0xFFFFFFFF (out of range), whose
entry 1 is 6, and whose other entries are 0xFFFFFFFF. -/
def firstEntryOutOfRange : Block :=
  fun o => if o < 4 then 255 else if o = 7 then 6 else if o < 8 then 0 else 255

/-- An indirect block whose first word is 7 and whose other words are
0xFFFFFFFF. -/
def childList7 : Block := fun o => if o < 3 then 0 else if o = 3 then 7 else 255

/-- An image of 8 blocks: boot block filled with 0xFF, block 5 the first-level
block `firstEntryOutOfRange`, block 6 the second-level block `childList7`. -/
def doubleIndirectImage : State :=
  { emptyState with
    numBlocks := 8,
    disk := fun off =>
      if off = 0 then some (fun _ => 255)
      else if off = 20480 then some firstEntryOutOfRange
      else if off = 24576 then some childList7
      else none,
    inodeCounter := fun n => if n = 1 then ⟨1, 1⟩ else ⟨0, 0⟩ }

/-- A superblock whose free-list head link (offset 2028) is 5 and whose other
words are 0. -/
def superblockLink5 : Block := fun o => if o = 2031 then 5 else 0

/-- An image of 8 blocks with a free-list chain of one block: the superblock
names block 5, whose link word is 0; all tallies are 0. -/
def oneLinkBlock : State :=
  { emptyState with
    numBlocks := 8,
    disk := fun off =>
      if off = 4096 then some superblockLink5
      else if off = 20480 then some zeroBlock
      else none }

/-- The inode block of a root directory (inode 1, mode 030000) with first
direct block 5 and second direct block 6. -/
def rootTwoBlocks : Block :=
  fun o => if o = 66 then 0x30 else if o = 99 then 5 else if o = 103 then 6 else 0

/-- A directory block whose entry 0 names inode 2, the other entries empty. -/
def dirEntryInode2 : Block := fun o => if o = 3 then 2 else 0

/-- An image of 8 blocks whose root directory has two data blocks: block 5
(empty entries) and block 6 (an entry for inode 2); all tallies are 0. -/
def rootWithTwoBlocks : State :=
  { emptyState with
    numBlocks := 8,
    inodeListSize := 1,
    disk := fun off =>
      if off = 8192 then some rootTwoBlocks
      else if off = 20480 then some zeroBlock
      else if off = 24576 then some dirEntryInode2
      else none }

/-- An inode block whose slot 1 is a regular file with `nlink = 1` and
single-indirect pointer 9, all other pointers 0. -/
def pointerPastEnd : Block :=
  fun o => if o = 66 then 0x40 else if o = 71 then 1 else if o = 123 then 9 else 0

/-- An image of 8 blocks (valid indices 0..7); the bytes at the positions of
block 0 and of block 9 are readable and filled with 0xFF. -/
def pastEndImage : State :=
  { emptyState with
    numBlocks := 8,
    disk := fun off =>
      if off = 0 then some (fun _ => 255)
      else if off = 36864 then some (fun _ => 255)
      else none,
    inodeCounter := fun n => if n = 1 then ⟨1, 1⟩ else ⟨0, 0⟩ }

/-! ## Free-list chains -/

/-- The free-list chain that starts at block `link` reaches a link word 0
within `k` blocks, each of them readable. -/
def chainEnds (disk : Nat → Option Block) (fsStart : Nat) : Nat → Nat → Bool
  | 0, _ => false
  | k + 1, link =>
    match disk (blockOffset fsStart link) with
    | none => false
    | some buf => get4Bytes buf 4 == 0 || chainEnds disk fsStart k (get4Bytes buf 4)

/-- The free-list chain that starts at block `link` consists of block numbers
below `numBlocks` and reaches a link word 0 within `k` blocks, each of them
readable. -/
def chainEndsInRange (disk : Nat → Option Block) (fsStart numBlocks : Nat) : Nat → Nat → Bool
  | 0, _ => false
  | k + 1, link =>
    decide (link < numBlocks) &&
      match disk (blockOffset fsStart link) with
      | none => false
      | some buf =>
        get4Bytes buf 4 == 0 || chainEndsInRange disk fsStart numBlocks k (get4Bytes buf 4)

/-- A free-list link block whose link word (offset 4) is 5. -/
def selfLinkBlock : Block := fun o => if o = 7 then 5 else 0

/-- An image in which every position is readable; the superblock names block 5
as head of the free list, and the link word of block 5 names block 5. -/
def selfLinkedImage : State :=
  { emptyState with
    numBlocks := 8,
    disk := fun off => if off = 4096 then some superblockLink5 else some selfLinkBlock }

/-! ## Notions for the termination of the directory walk -/

namespace Res

end Res

theorem be_or (a b c d : Nat) (ha : a < 256) (hb : b < 256) (hc : c < 256) (hd : d < 256) :
    ((a <<< 24) % 2 ^ 32) ||| ((b <<< 16) % 2 ^ 32) ||| ((c <<< 8) % 2 ^ 32) |||
      ((d <<< 0) % 2 ^ 32) = a * 2 ^ 24 + b * 2 ^ 16 + c * 2 ^ 8 + d := by
  simp only [Nat.shiftLeft_eq]
  rw [Nat.mod_eq_of_lt (by omega), Nat.mod_eq_of_lt (by omega), Nat.mod_eq_of_lt (by omega),
    Nat.mod_eq_of_lt (by omega)]
  have h1 : a * 2 ^ 24 ||| b * 2 ^ 16 = 2 ^ 16 * (a * 2 ^ 8 + b) := by
    have := Nat.mul_add_lt_is_or (i := 24) (b := b * 2 ^ 16) (by omega) a
    rw [Nat.mul_comm a, ← this]; ring
  have h2 : 2 ^ 16 * (a * 2 ^ 8 + b) ||| c * 2 ^ 8 = 2 ^ 8 * (a * 2 ^ 16 + b * 2 ^ 8 + c) := by
    have := Nat.mul_add_lt_is_or (i := 16) (b := c * 2 ^ 8) (by omega) (a * 2 ^ 8 + b)
    rw [← this]; ring
  have h3 : 2 ^ 8 * (a * 2 ^ 16 + b * 2 ^ 8 + c) ||| d * 2 ^ 0
      = 2 ^ 8 * (a * 2 ^ 16 + b * 2 ^ 8 + c) + d := by
    have := Nat.mul_add_lt_is_or (i := 8) (b := d) (by omega) (a * 2 ^ 16 + b * 2 ^ 8 + c)
    rw [this]; simp
  rw [h1, h2, h3]; ring

theorem get4Bytes_eq (addr : Block) (p : Nat) :
    get4Bytes addr p = (addr p).val * 2 ^ 24 + (addr (p + 1)).val * 2 ^ 16
      + (addr (p + 2)).val * 2 ^ 8 + (addr (p + 3)).val := by
  unfold get4Bytes UINT
  exact be_or _ _ _ _ (addr p).isLt (addr (p + 1)).isLt (addr (p + 2)).isLt (addr (p + 3)).isLt

theorem get4Bytes_lt (addr : Block) (p : Nat) : get4Bytes addr p < 2 ^ 32 := by
  rw [get4Bytes_eq]
  have h0 := (addr p).isLt
  have h1 := (addr (p + 1)).isLt
  have h2 := (addr (p + 2)).isLt
  have h3 := (addr (p + 3)).isLt
  omega

/-- C1: `get4Bytes` decodes four bytes as the big-endian number
`b0*2^24 + b1*2^16 + b2*2^8 + b3`, the result is below `2^32`, and two byte
quadruples decode to the same value exactly when they are equal. -/
theorem get4Bytes_bigEndian (addr : Block) (p : Nat) :
    get4Bytes addr p = (addr p).val * 2 ^ 24 + (addr (p + 1)).val * 2 ^ 16
        + (addr (p + 2)).val * 2 ^ 8 + (addr (p + 3)).val
    ∧ get4Bytes addr p < 2 ^ 32
    ∧ ∀ (addr2 : Block) (q : Nat),
        (get4Bytes addr p = get4Bytes addr2 q ↔
          (addr p = addr2 q ∧ addr (p + 1) = addr2 (q + 1) ∧ addr (p + 2) = addr2 (q + 2)
            ∧ addr (p + 3) = addr2 (q + 3))) := by
  refine ⟨get4Bytes_eq addr p, get4Bytes_lt addr p, ?_⟩
  intro addr2 q
  constructor
  · intro h
    rw [get4Bytes_eq, get4Bytes_eq] at h
    have h0 := (addr p).isLt
    have h1 := (addr (p + 1)).isLt
    have h2 := (addr (p + 2)).isLt
    have h3 := (addr (p + 3)).isLt
    have k0 := (addr2 q).isLt
    have k1 := (addr2 (q + 1)).isLt
    have k2 := (addr2 (q + 2)).isLt
    have k3 := (addr2 (q + 3)).isLt
    refine ⟨Fin.ext ?_, Fin.ext ?_, Fin.ext ?_, Fin.ext ?_⟩ <;> omega
  · rintro ⟨e0, e1, e2, e3⟩
    rw [get4Bytes_eq, get4Bytes_eq, e0, e1, e2, e3]

/-! ## The block pass -/

theorem blockVerdict_none_iff (c : bCounter_t) (hf : 0 ≤ c.free) (ho : 0 ≤ c.occupied) :
    blockVerdict c = none ↔ c.free + c.occupied = 1 := by
  unfold blockVerdict
  simp only []
  split_ifs <;> simp <;> omega

theorem checkBlockCounterLoop_none (st : State) :
    ∀ (fuel i : Nat), st.numBlocks - i < fuel →
      (∀ b, i ≤ b → b < st.numBlocks → blockVerdict (st.bCounter b) = none) →
      checkBlockCounterLoop st fuel i = .ok () := by
  intro fuel
  induction fuel with
  | zero => intro i h; omega
  | succ f ih =>
    intro i hf hall
    unfold checkBlockCounterLoop
    by_cases hi : i < st.numBlocks
    · rw [if_pos hi, hall i (le_refl i) hi]
      exact ih (i + 1) (by omega) (fun b hb hb2 => hall b (by omega) hb2)
    · rw [if_neg hi]

theorem checkBlockCounterLoop_some (st : State) (k code : Nat) (hk : k < st.numBlocks)
    (hcode : blockVerdict (st.bCounter k) = some code) :
    ∀ (fuel i : Nat), st.numBlocks - i < fuel → i ≤ k →
      (∀ b, i ≤ b → b < k → blockVerdict (st.bCounter b) = none) →
      checkBlockCounterLoop st fuel i = .exit code := by
  intro fuel
  induction fuel with
  | zero => intro i h; omega
  | succ f ih =>
    intro i hf hik hall
    unfold checkBlockCounterLoop
    have hi : i < st.numBlocks := by omega
    rw [if_pos hi]
    by_cases hik2 : i = k
    · subst hik2
      rw [hcode]
    · rw [hall i (le_refl i) (by omega)]
      exact ih (i + 1) (by omega) (by omega) (fun b hb hb2 => hall b (by omega) hb2)

theorem checkBlockCounterLoop_congr (st st2 : State) (hn : st.numBlocks = st2.numBlocks)
    (lo : Nat) (hb : ∀ b, lo ≤ b → b < st.numBlocks → st.bCounter b = st2.bCounter b) :
    ∀ (fuel i : Nat), lo ≤ i →
      checkBlockCounterLoop st fuel i = checkBlockCounterLoop st2 fuel i := by
  intro fuel
  induction fuel with
  | zero => intro i _; rfl
  | succ f ih =>
    intro i hi
    unfold checkBlockCounterLoop
    rw [← hn]
    by_cases hlt : i < st.numBlocks
    · rw [if_pos hlt, if_pos hlt, ← hb i hi hlt, ih (i + 1) (by omega)]
    · rw [if_neg hlt, if_neg hlt]

/-- C2: with non-negative counters, `checkBlockCounter` returns without exit
exactly when every scanned block `b` (`2 ≤ b < numBlocks`) has
`free + occupied = 1`, that is exactly one of `free = 1`, `occupied = 1`. -/
theorem checkBlockCounter_ok_iff (st : State)
    (hnn : ∀ b, 0 ≤ (st.bCounter b).free ∧ 0 ≤ (st.bCounter b).occupied) :
    checkBlockCounter st = .ok () ↔
      ∀ b, 2 ≤ b → b < st.numBlocks →
        (st.bCounter b).free + (st.bCounter b).occupied = 1
        ∧ ((st.bCounter b).free = 1 ∨ (st.bCounter b).occupied = 1)
        ∧ ¬ ((st.bCounter b).free = 1 ∧ (st.bCounter b).occupied = 1) := by
  constructor
  · intro hok
    by_contra hcon
    have hex : ∃ b, 2 ≤ b ∧ b < st.numBlocks ∧ blockVerdict (st.bCounter b) ≠ none := by
      by_contra hne
      apply hcon
      intro b hb2 hbn
      have hv : blockVerdict (st.bCounter b) = none := by
        by_contra hv
        exact hne ⟨b, hb2, hbn, hv⟩
      have hs := (blockVerdict_none_iff _ (hnn b).1 (hnn b).2).1 hv
      have h0 := (hnn b).1
      have h1 := (hnn b).2
      refine ⟨hs, ?_, ?_⟩ <;> omega
    classical
    have hk := Nat.find_spec hex
    have hmin : ∀ b, 2 ≤ b → b < Nat.find hex → blockVerdict (st.bCounter b) = none := by
      intro b hb2 hbk
      by_contra hv
      exact Nat.find_min hex hbk ⟨hb2, by omega, hv⟩
    obtain ⟨code, hcode⟩ := Option.ne_none_iff_exists'.1 hk.2.2
    have := checkBlockCounterLoop_some st (Nat.find hex) code hk.2.1 hcode
      (st.numBlocks + 1) 2 (by omega) hk.1 hmin
    unfold checkBlockCounter at hok
    rw [this] at hok
    cases hok
  · intro hall
    unfold checkBlockCounter
    apply checkBlockCounterLoop_none st _ _ (by omega)
    intro b hb2 hbn
    exact (blockVerdict_none_iff _ (hnn b).1 (hnn b).2).2 (hall b hb2 hbn).1

/-- Witness for C2 on a table with one free and one occupied data block. -/
theorem checkBlockCounter_ok_iff_witness :
    checkBlockCounter cleanTable = .ok () ↔
      ∀ b, 2 ≤ b → b < cleanTable.numBlocks →
        (cleanTable.bCounter b).free + (cleanTable.bCounter b).occupied = 1
        ∧ ((cleanTable.bCounter b).free = 1 ∨ (cleanTable.bCounter b).occupied = 1)
        ∧ ¬ ((cleanTable.bCounter b).free = 1 ∧ (cleanTable.bCounter b).occupied = 1) :=
  checkBlockCounter_ok_iff cleanTable (by
    intro b
    by_cases hb : b = 2 <;> simp [cleanTable, emptyState, hb])

/-- C3 as stated fails: block 2 with `free = 2`, `occupied = 1` has
`free ≥ 1` and `occupied ≥ 1`, but the exit code is 12, not 11. -/
theorem checkBlockCounter_doubleUse_counterexample :
    1 ≤ (doubleFreeInUse.bCounter 2).free ∧ 1 ≤ (doubleFreeInUse.bCounter 2).occupied
      ∧ checkBlockCounter doubleFreeInUse = .exit 12 := by
  decide

/-- C3 (amended): with non-negative counters, if `k` is the smallest scanned
index with `free + occupied ≠ 1`, then `checkBlockCounter` exits with the code
of the first matching row for block `k`: 10 if both are 0, else 11 if both
are exactly 1, else 12 if `free > 1`, else 13 (then `occupied > 1`). -/
theorem checkBlockCounter_first_violation (st : State) (k : Nat)
    (hnn : ∀ b, 0 ≤ (st.bCounter b).free ∧ 0 ≤ (st.bCounter b).occupied)
    (hk2 : 2 ≤ k) (hk : k < st.numBlocks)
    (hviol : (st.bCounter k).free + (st.bCounter k).occupied ≠ 1)
    (hmin : ∀ b, 2 ≤ b → b < k → (st.bCounter b).free + (st.bCounter b).occupied = 1) :
    checkBlockCounter st = .exit
        (if (st.bCounter k).free = 0 ∧ (st.bCounter k).occupied = 0 then 10
         else if (st.bCounter k).free = 1 ∧ (st.bCounter k).occupied = 1 then 11
         else if (st.bCounter k).free > 1 then 12
         else 13)
      ∧ (¬ ((st.bCounter k).free = 0 ∧ (st.bCounter k).occupied = 0) →
          ¬ ((st.bCounter k).free = 1 ∧ (st.bCounter k).occupied = 1) →
          ¬ (st.bCounter k).free > 1 → (st.bCounter k).occupied > 1) := by
  have h0 := (hnn k).1
  have h1 := (hnn k).2
  refine ⟨?_, by omega⟩
  unfold checkBlockCounter
  apply checkBlockCounterLoop_some st k _ hk ?_ _ _ (by omega) hk2
  · intro b hb2 hbk
    exact (blockVerdict_none_iff _ (hnn b).1 (hnn b).2).2 (hmin b hb2 hbk)
  · unfold blockVerdict
    simp only []
    split_ifs <;> first | rfl | omega

/-- Witness for C3 (amended): block 2 of `doubleFreeInUse` is the first violation. -/
theorem checkBlockCounter_first_violation_witness :
    checkBlockCounter doubleFreeInUse = .exit 12 := by
  have h := (checkBlockCounter_first_violation doubleFreeInUse 2
    (by intro b; by_cases hb : b = 2 <;> simp [doubleFreeInUse, emptyState, hb])
    (by decide) (by decide) (by decide) (by intro b h2 h3; omega)).1
  simpa [doubleFreeInUse, emptyState] using h

/-- C4 as stated fails: with `inodeListSize = 1` block 2 is an inode-table
block (2 < 2 + inodeListSize); its counters (0, 0) make `checkBlockCounter`
exit with 10, and with block 2 credited once the same table passes. -/
theorem checkBlockCounter_inodeBlock_counterexample :
    2 < 2 + uncreditedInodeBlock.inodeListSize
      ∧ checkBlockCounter uncreditedInodeBlock = .exit 10
      ∧ checkBlockCounter (incOccupied 2 uncreditedInodeBlock) = .ok () := by
  decide

/-- C4 (amended): the block pass judges every block from index 2 on, the
inode-table blocks included; only the counters of blocks 0 and 1 never matter.
Two tables that agree on the indices `2 ≤ b < numBlocks` get the same result. -/
theorem checkBlockCounter_ignores_boot_and_super (st st2 : State)
    (hn : st.numBlocks = st2.numBlocks)
    (hb : ∀ b, 2 ≤ b → b < st.numBlocks → st.bCounter b = st2.bCounter b) :
    checkBlockCounter st = checkBlockCounter st2 := by
  unfold checkBlockCounter
  rw [← hn]
  exact checkBlockCounterLoop_congr st st2 hn 2 hb _ 2 (le_refl 2)

/-- Witness for C4 (amended): crediting blocks 0 and 1 changes nothing. -/
theorem checkBlockCounter_ignores_boot_and_super_witness :
    checkBlockCounter cleanTable = checkBlockCounter (incOccupied 0 (incFree 1 cleanTable)) :=
  checkBlockCounter_ignores_boot_and_super cleanTable (incOccupied 0 (incFree 1 cleanTable))
    rfl (by
      intro b hb2 _
      have h0 : b ≠ 0 := by omega
      have h1 : b ≠ 1 := by omega
      simp [incOccupied, incFree, h0, h1])

/-! ## Exits of the traversals come from `readBlock` only -/

theorem onlyExit99_ok {α : Type} (a : α) : (Res.ok a).onlyExit99 := by
  intro c h; cases h

theorem onlyExit99_fuel {α : Type} : (Res.fuel : Res α).onlyExit99 := by
  intro c h; cases h

theorem onlyExit99_exit {α : Type} : (Res.exit 99 : Res α).onlyExit99 := by
  intro c h; cases h; rfl

theorem onlyExit99_bind {α β : Type} (r : Res α) (f : α → Res β) (hr : r.onlyExit99)
    (hf : ∀ a, (f a).onlyExit99) : (r.bind f).onlyExit99 := by
  cases r with
  | ok a => exact hf a
  | exit c =>
    intro d h
    cases h
    exact hr _ rfl
  | fuel => exact onlyExit99_fuel

theorem readBlock_onlyExit99 (b : Nat) (st : State) : (readBlock b st).onlyExit99 := by
  unfold readBlock
  split
  · exact onlyExit99_ok _
  · exact onlyExit99_exit

theorem readBlock_some (b : Nat) (st : State) (buf : Block)
    (h : st.disk (blockOffset st.fsStart b) = some buf) :
    readBlock b st = .ok (buf, { st with trace := Event.readBlock b :: st.trace }) := by
  unfold readBlock
  rw [h]

theorem readBlock_none (b : Nat) (st : State)
    (h : st.disk (blockOffset st.fsStart b) = none) : readBlock b st = .exit 99 := by
  unfold readBlock
  rw [h]

theorem doubleIndirectLoop_onlyExit99 (buf : Block) :
    ∀ (n p0 : Nat) (st : State), (doubleIndirectLoop buf n p0 st).onlyExit99 := by
  intro n
  induction n with
  | zero => intro p0 st; exact onlyExit99_ok _
  | succ n ih =>
    intro p0 st
    unfold doubleIndirectLoop
    simp only []
    split
    · exact onlyExit99_bind _ _ (readBlock_onlyExit99 _ _) (fun r => ih _ _)
    · exact ih _ _

theorem inodeBlocks_onlyExit99 (buf : Block) (p : Nat) (st : State) :
    (inodeBlocks buf p st).onlyExit99 := by
  unfold inodeBlocks getSingleIndirectBlocks getDoubleIndirectBlocks
  refine onlyExit99_bind _ _ ?_ (fun s => onlyExit99_bind _ _ ?_ (fun s2 => onlyExit99_ok _))
  · exact onlyExit99_bind _ _ (readBlock_onlyExit99 _ _) (fun r => onlyExit99_ok _)
  · exact onlyExit99_bind _ _ (readBlock_onlyExit99 _ _)
      (fun r => doubleIndirectLoop_onlyExit99 _ _ _ _)

theorem dirEntryLoop_onlyExit99 (f : Nat → State → Res State)
    (hf : ∀ n st, (f n st).onlyExit99) (buf : Block) :
    ∀ (n p : Nat) (st : State), (dirEntryLoop f buf n p st).onlyExit99 := by
  intro n
  induction n with
  | zero => intro p st; exact onlyExit99_ok _
  | succ n ih =>
    intro p st
    unfold dirEntryLoop
    refine onlyExit99_bind _ _ ?_ (fun s => ih _ _)
    split
    · exact hf _ _
    · exact onlyExit99_ok _

theorem dirBlockLoop_onlyExit99 (f : Nat → State → Res State)
    (hf : ∀ n st, (f n st).onlyExit99) (buf : Block) :
    ∀ (n p : Nat) (st : State), (dirBlockLoop f buf n p st).onlyExit99 := by
  intro n
  induction n with
  | zero => intro p st; exact onlyExit99_ok _
  | succ n ih =>
    intro p st
    unfold dirBlockLoop
    refine onlyExit99_bind _ _ ?_ (fun s => ih _ _)
    split
    · exact hf _ _
    · exact onlyExit99_ok _

theorem doubleDirLoop_onlyExit99 (f : Nat → State → Res State)
    (hf : ∀ n st, (f n st).onlyExit99) (buf : Block) :
    ∀ (n p : Nat) (st : State), (doubleDirLoop f buf n p st).onlyExit99 := by
  intro n
  induction n with
  | zero => intro p st; exact onlyExit99_ok _
  | succ n ih =>
    intro p st
    unfold doubleDirLoop
    exact onlyExit99_bind _ _ (readBlock_onlyExit99 _ _) (fun r =>
      onlyExit99_bind _ _ (dirBlockLoop_onlyExit99 f hf _ _ _ _) (fun s => ih _ _))

theorem readInodeBody_onlyExit99 (f : Nat → State → Res State)
    (hf : ∀ n st, (f n st).onlyExit99) (inodeNumber : Nat) (st : State) :
    (readInodeBody f inodeNumber st).onlyExit99 := by
  unfold readInodeBody
  refine onlyExit99_bind _ _ (readBlock_onlyExit99 _ _) (fun r => ?_)
  simp only []
  split
  · exact onlyExit99_ok _
  · refine onlyExit99_bind _ _ (dirBlockLoop_onlyExit99 f hf _ _ _ _) (fun s => ?_)
    refine onlyExit99_bind _ _ ?_ (fun s2 => ?_)
    · split
      · exact onlyExit99_bind _ _ (readBlock_onlyExit99 _ _)
          (fun r2 => dirBlockLoop_onlyExit99 f hf _ _ _ _)
      · exact onlyExit99_ok _
    · split
      · exact onlyExit99_bind _ _ (readBlock_onlyExit99 _ _)
          (fun r2 => doubleDirLoop_onlyExit99 f hf _ _ _ _)
      · exact onlyExit99_ok _

theorem checkDirectoryBody_onlyExit99 (f : Nat → State → Res State)
    (hf : ∀ n st, (f n st).onlyExit99) (blockNumber : Nat) (st : State) :
    (checkDirectoryBody f blockNumber st).onlyExit99 := by
  unfold checkDirectoryBody
  exact onlyExit99_bind _ _ (readBlock_onlyExit99 _ _)
    (fun r => dirEntryLoop_onlyExit99 f hf _ _ _ _)

theorem checkDirectory_onlyExit99 :
    ∀ (fuel blockNumber : Nat) (st : State), (checkDirectory fuel blockNumber st).onlyExit99 := by
  intro fuel
  induction fuel with
  | zero => intro b st; unfold checkDirectory; exact onlyExit99_fuel
  | succ f ih =>
    intro b st
    unfold checkDirectory
    exact checkDirectoryBody_onlyExit99 _ (fun n s => readInodeBody_onlyExit99 _ ih n s) b st

/-! ## The link check of the inode sweep -/

theorem logicalAnd_le_one (a b : Nat) : logicalAnd a b ≤ 1 := by
  unfold logicalAnd
  split <;> omega

theorem toUnsigned_of_nonneg (x : Int) (h0 : 0 ≤ x) (h1 : x < 2 ^ 31) :
    (toUnsigned x : Int) = x := by
  unfold toUnsigned UINT
  have : x % ((2 ^ 32 : Nat) : Int) = x := Int.emod_eq_of_lt h0 (by push_cast; omega)
  rw [this]
  exact Int.toNat_of_nonneg h0

theorem linkCheck_eq (mode nLink : Nat) (refs : Int) (h0 : 0 ≤ refs) (h1 : refs < 2 ^ 31) :
    linkCheck (if mode ≠ 0 then 0 else 1) nLink refs =
      (if nLink = 0 ∧ refs > 0 then some 15
       else if mode ≠ 0 ∧ nLink = 0 then some 16
       else if nLink ≠ 0 ∧ (nLink : Int) ≠ refs then some 17
       else if mode = 0 ∧ refs > 0 then some 19
       else none) := by
  have hu := toUnsigned_of_nonneg refs h0 h1
  obtain ⟨r, rfl⟩ := Int.eq_ofNat_of_zero_le h0
  have hu2 : toUnsigned (r : Int) = r := by exact_mod_cast hu
  unfold linkCheck
  rw [hu2]
  clear hu hu2
  by_cases hm : mode = 0 <;> by_cases hn : nLink = 0 <;> by_cases hr : r = 0 <;>
    by_cases he : nLink = r <;> simp [hm, hn, hr, he] <;>
    first
    | omega
    | (split_ifs <;> first | rfl | omega)

theorem inodeSlot_eq (i j : Nat) (blockBuffer : Block) (p : Nat) (st : State)
    (hslot : ¬ (i = 2 ∧ j = 0)) :
    inodeSlot i j blockBuffer p st =
      match linkCheck (if get4Bytes blockBuffer p ≠ 0 then 0 else 1)
          (get4Bytes blockBuffer (p + 4)) (st.inodeCounter (slotIndex i j)).refs with
      | some code => .exit code
      | none => inodeBlocks blockBuffer (p + 32) st := by
  have hl : ¬ (logicalAnd (get4Bytes blockBuffer p) IFMT = IFCHR
      ∨ logicalAnd (get4Bytes blockBuffer p) IFMT = IFBLK) := by
    have := logicalAnd_le_one (get4Bytes blockBuffer p) IFMT
    unfold IFCHR IFBLK
    omega
  have e : p + 4 + 24 + 4 = p + 32 := by omega
  unfold inodeSlot
  rw [if_neg hslot]
  simp only []
  rw [if_neg hl, e]

/-- C5: for every slot that `inspectInodes` examines (all but slot 0 of block
2), with `refs` the non-negative tally of the inode, the slot exits with 15 if
`nlink = 0` and `refs > 0`, else 16 if `mode ≠ 0` and `nlink = 0`, else 17 if
`nlink ≠ 0` and `nlink ≠ refs`, else 19 if `mode = 0` and `refs > 0`, and else
goes on to the block traversal.  So no link error ends the run exactly when
`nlink = refs` and (`mode = 0` iff `nlink = 0`). -/
theorem inodeSlot_linkCheck (i j : Nat) (blockBuffer : Block) (p : Nat) (st : State)
    (hslot : ¬ (i = 2 ∧ j = 0))
    (hrefs : 0 ≤ (st.inodeCounter (slotIndex i j)).refs)
    (hint : (st.inodeCounter (slotIndex i j)).refs < 2 ^ 31) :
    inodeSlot i j blockBuffer p st =
        (if get4Bytes blockBuffer (p + 4) = 0 ∧ (st.inodeCounter (slotIndex i j)).refs > 0
          then .exit 15
         else if get4Bytes blockBuffer p ≠ 0 ∧ get4Bytes blockBuffer (p + 4) = 0
          then .exit 16
         else if get4Bytes blockBuffer (p + 4) ≠ 0
            ∧ (get4Bytes blockBuffer (p + 4) : Int) ≠ (st.inodeCounter (slotIndex i j)).refs
          then .exit 17
         else if get4Bytes blockBuffer p = 0 ∧ (st.inodeCounter (slotIndex i j)).refs > 0
          then .exit 19
         else inodeBlocks blockBuffer (p + 32) st)
      ∧ ((∀ c, inodeSlot i j blockBuffer p st = .exit c → c = 99) ↔
          ((get4Bytes blockBuffer (p + 4) : Int) = (st.inodeCounter (slotIndex i j)).refs
            ∧ (get4Bytes blockBuffer p = 0 ↔ get4Bytes blockBuffer (p + 4) = 0))) := by
  have hib := inodeBlocks_onlyExit99 blockBuffer (p + 32) st
  unfold Res.onlyExit99 at hib
  rw [inodeSlot_eq i j blockBuffer p st hslot, linkCheck_eq _ _ _ hrefs hint]
  generalize get4Bytes blockBuffer p = mode
  generalize get4Bytes blockBuffer (p + 4) = nLink
  obtain ⟨r, hr⟩ := Int.eq_ofNat_of_zero_le hrefs
  rw [hr]
  by_cases hm : mode = 0 <;> by_cases hn : nLink = 0 <;> by_cases hz : r = 0 <;>
    by_cases he : nLink = r <;>
    (try (have hz3 : 0 < r := Nat.pos_of_ne_zero hz)) <;>
    (try simp [hm, hn, hz, he, *]) <;>
    first
    | exact hib
    | omega

/-- Witness for C5: a regular file with `nlink = 2` and one reference (the
link-count mismatch scenario) exits with 17. -/
theorem inodeSlot_linkCheck_witness :
    inodeSlot 3 0 regularFileBlock 0 oneReference = .exit 17 := by
  rw [(inodeSlot_linkCheck 3 0 regularFileBlock 0 oneReference (by decide) (by decide)
    (by decide)).1]
  rw [if_neg (by decide), if_neg (by decide), if_pos (by decide)]

/-! ## The root directory -/

/-- C6: when block 2 is readable, `getRootDir` exits with 20 exactly when the
mode word of inode 1 (bytes 64..67 of block 2) has `(mode & 070000) != 030000`;
otherwise it continues with `checkDirectory` on the first direct block, in a
state where inode 1 is already marked visited and nothing but block 2 was read. -/
theorem getRootDir_exit20_iff (fuel : Nat) (st : State) (buf : Block)
    (hread : st.disk (blockOffset st.fsStart 2) = some buf) :
    (getRootDir fuel st = .exit 20 ↔ get4Bytes buf 64 &&& IFMT ≠ IFDIR)
      ∧ (get4Bytes buf 64 &&& IFMT = IFDIR →
          getRootDir fuel st = checkDirectory fuel (get4Bytes buf 96)
              (setVisited 1 { st with trace := Event.readBlock 2 :: st.trace })
          ∧ ((setVisited 1 { st with trace := Event.readBlock 2 :: st.trace }).inodeCounter 1).visited
              = 1
          ∧ (setVisited 1 { st with trace := Event.readBlock 2 :: st.trace }).trace
              = Event.readBlock 2 :: st.trace) := by
  have hdir : get4Bytes buf 64 &&& IFMT = IFDIR →
      getRootDir fuel st = checkDirectory fuel (get4Bytes buf 96)
        (setVisited 1 { st with trace := Event.readBlock 2 :: st.trace }) := by
    intro h
    unfold getRootDir
    rw [readBlock_some 2 st buf hread]
    simp only [Res.bind]
    rw [if_neg (by simpa using h)]
  refine ⟨⟨?_, ?_⟩, fun h => ⟨hdir h, by simp [setVisited], rfl⟩⟩
  · intro h20 hd
    rw [hdir hd] at h20
    have := checkDirectory_onlyExit99 _ _ _ 20 h20
    omega
  · intro h
    unfold getRootDir
    rw [readBlock_some 2 st buf hread]
    simp only [Res.bind]
    rw [if_pos h]

/-- Witness for C6: an image whose inode 1 is a regular file (root not a
directory) exits with 20. -/
theorem getRootDir_exit20_iff_witness : getRootDir 3 rootIsFile = .exit 20 :=
  (getRootDir_exit20_iff 3 rootIsFile (fun o => if o = 66 then 0x40 else 0) rfl).1.2
    (by decide)

/-! ## Evaluations of the sweeps on concrete images -/

/-- C7 (evaluation at the failing input): the inode table has 64 inodes, all
tallies are 0, and block 5 is a directory block of 64 empty entries (inode
field 0).  `checkDirectory` counts every empty entry as a reference to inode 0
(`refs` of index 0 goes from 0 to 64) and enters `readInode` for inode 0:
block 2 is read and inode 0 ends up marked visited. -/
theorem checkDirectory_counts_empty_slots :
    emptyDirImage.inodeListSize * INOPB = 64
      ∧ (List.range 64).all (fun k => get4Bytes zeroBlock (k * 64) == 0) = true
      ∧ (emptyDirImage.inodeCounter 0).refs = 0
      ∧ (emptyDirImage.inodeCounter 0).visited = 0
      ∧ (checkDirectory 1 5 emptyDirImage).map
          (fun s => ((s.inodeCounter 0).refs, (s.inodeCounter 0).visited, s.trace))
        = .ok (64, 1, [Event.readBlock 2, Event.readInode 0, Event.readBlock 5,
            Event.checkDirectory 5]) := by
  decide!

/-- C8 (evaluation at the failing input): for the allocated regular file in
slot 1 of block 2 whose eight block pointers are all 0, the slot body of the
sweep credits `occupied` of block 0 six times and reads block 0 twice (as
single and as double indirect block). -/
theorem inodeSlot_zero_pointers :
    get4Bytes emptyFileBlock 64 &&& IFMT = IFREG
      ∧ (List.range 8).map (fun k => get4Bytes emptyFileBlock (96 + 4 * k))
          = [0, 0, 0, 0, 0, 0, 0, 0]
      ∧ (bootOnlyImage.bCounter 0).occupied = 0
      ∧ (inodeSlot 2 1 emptyFileBlock 64 bootOnlyImage).map
          (fun r => (r.2.trace, (r.2.bCounter 0).occupied))
        = .ok ([Event.readBlock 0, Event.readBlock 0], 6) := by
  decide!

/-- C9 (evaluation at the failing input): with `numBlocks = 4` and the
superblock's head link equal to 4, the free-list sweep credits `free` of index
4 twice (in `inspectFreelist` and in `followLinkBlock`) and reads block 4. -/
theorem inspectFreelist_link_out_of_range :
    linkPastEnd.numBlocks = 4
      ∧ get4Bytes superblockLink4 2028 = 4
      ∧ (linkPastEnd.bCounter 4).free = 0
      ∧ (inspectFreelist 1 linkPastEnd).map (fun s => ((s.bCounter 4).free, s.trace))
        = .ok (2, [Event.readBlock 4, Event.readBlock 1]) := by
  decide!

/-- C10 (evaluation at the failing input): with `inodeListSize = 2` the inode
table is blocks 2 and 3, but `inspectInodes` reads only the superblock (once
itself, once in `inspectFreelist`) and credits neither block 2 nor block 3. -/
theorem inspectInodes_two_inode_blocks :
    (inspectInodes 0 twoInodeBlocks).map
        (fun s => (s.inodeListSize, s.trace, (s.bCounter 2).occupied, (s.bCounter 3).occupied))
      = .ok (2, [Event.readBlock 1, Event.readBlock 1], 0, 0) := by
  decide!

/-! ## Where an inode lives -/

theorem inodeBlocks_advance (buf : Block) (p : Nat) (st : State) (r : Nat × State)
    (h : inodeBlocks buf p st = .ok r) : r.1 = p + 32 := by
  unfold inodeBlocks at h
  simp only [] at h
  cases h1 : getSingleIndirectBlocks buf (p + 24) (getDirectBlocks buf p st) with
  | ok s1 =>
    rw [h1] at h
    simp only [Res.bind] at h
    cases h2 : getDoubleIndirectBlocks buf (p + 24 + 4) s1 with
    | ok s2 =>
      rw [h2] at h
      simp only [Res.bind] at h
      cases h
      simp only []
    | exit c => rw [h2] at h; simp [Res.bind] at h
    | fuel => rw [h2] at h; simp [Res.bind] at h
  | exit c => rw [h1] at h; simp [Res.bind] at h
  | fuel => rw [h1] at h; simp [Res.bind] at h

theorem inodeSlot_advance (i j : Nat) (buf : Block) (p : Nat) (st : State) (r : Nat × State)
    (h : inodeSlot i j buf p st = .ok r) : r.1 = p + 64 := by
  unfold inodeSlot at h
  split at h
  · cases h; rfl
  · simp only [] at h
    split at h
    · cases h; simp only []
    · split at h
      · cases h
      · have := inodeBlocks_advance _ _ _ _ h
        omega

theorem readInode_notDirectory (fuel n : Nat) (st : State) (buf : Block)
    (hread : st.disk (blockOffset st.fsStart (inodeBlock n)) = some buf)
    (hmode : get4Bytes buf (inodeOffset n) &&& IFMT ≠ IFDIR) :
    readInode fuel n st = .ok
      { setVisited n (logEvent (.readInode n) st) with
        trace := Event.readBlock (inodeBlock n) :: Event.readInode n :: st.trace } := by
  unfold readInode readInodeBody
  simp only []
  have hread2 : (setVisited n (logEvent (.readInode n) st)).disk
      (blockOffset (setVisited n (logEvent (.readInode n) st)).fsStart (n / INOPB + 2))
        = some buf := hread
  have hmode2 : get4Bytes buf (n % INOPB * 64) &&& IFMT ≠ IFDIR := hmode
  rw [readBlock_some _ _ buf hread2]
  simp only [Res.bind]
  rw [if_pos hmode2]
  rfl

theorem readInode_unreadable (fuel n : Nat) (st : State)
    (hread : st.disk (blockOffset st.fsStart (inodeBlock n)) = none) :
    readInode fuel n st = .exit 99 := by
  unfold readInode readInodeBody
  simp only []
  have hread2 : (setVisited n (logEvent (.readInode n) st)).disk
      (blockOffset (setVisited n (logEvent (.readInode n) st)).fsStart (n / INOPB + 2))
        = none := hread
  rw [readBlock_none _ _ hread2]
  rfl

/-- C11 as stated fails for large block numbers: at block `i = 2^26 + 2`,
slot 0, the 32-bit tally index `(i - 2) * 64 + 0` wraps to 0, and `readInode`
locates inode 0 in block 2, not in block `i`. -/
theorem slotIndex_wraps_counterexample :
    slotIndex 67108866 0 = 0 ∧ inodeBlock (slotIndex 67108866 0) = 2
      ∧ inodeBlock (slotIndex 67108866 0) ≠ 67108866 := by
  decide

/-- C11 (amended): `readInode` decodes inode `n` from block `2 + n/64` at byte
offset `(n mod 64) * 64`, and the 64-byte record ends inside the block.  For
every inode-table block `i` with `2 ≤ i < 2^26 + 2` (so that the index fits in
32 bits) and slot `j < 64`, the tally index of `inspectInodes` is
`(i - 2) * 64 + j`, and it is the one `n` that `readInode` locates at block `i`,
offset `j * 64`; each slot of the sweep advances the read position by 64.
Inode 1 is at offset 64 of block 2, where `getRootDir` reads it. -/
theorem inode_location (n i j : Nat) (hi : 2 ≤ i) (hi2 : i < 2 ^ 26 + 2) (hj : j < 64) :
    (inodeBlock n = 2 + n / 64 ∧ inodeOffset n = (n % 64) * 64
        ∧ inodeOffset n + 64 ≤ BLOCK_SIZE)
      ∧ (∀ (fuel : Nat) (st : State) (buf : Block),
          st.disk (blockOffset st.fsStart (inodeBlock n)) = some buf →
          get4Bytes buf (inodeOffset n) &&& IFMT ≠ IFDIR →
          readInode fuel n st = .ok
            { setVisited n (logEvent (.readInode n) st) with
              trace := Event.readBlock (inodeBlock n) :: Event.readInode n :: st.trace })
      ∧ (∀ (fuel : Nat) (st : State),
          st.disk (blockOffset st.fsStart (inodeBlock n)) = none →
          readInode fuel n st = .exit 99)
      ∧ slotIndex i j = (i - 2) * 64 + j
      ∧ inodeBlock (slotIndex i j) = i
      ∧ inodeOffset (slotIndex i j) = j * 64
      ∧ (∀ m, inodeBlock m = i → inodeOffset m = j * 64 → m = slotIndex i j)
      ∧ (∀ (buf : Block) (p : Nat) (st : State) (r : Nat × State),
          inodeSlot i j buf p st = .ok r → r.1 = p + 64)
      ∧ inodeBlock 1 = 2 ∧ inodeOffset 1 = 64 := by
  have hs : slotIndex i j = (i - 2) * 64 + j := by
    unfold slotIndex INOPB UINT
    omega
  refine ⟨⟨?_, ?_, ?_⟩, fun fuel st buf h1 h2 => readInode_notDirectory fuel n st buf h1 h2,
    fun fuel st h => readInode_unreadable fuel n st h, hs, ?_, ?_, ?_,
    fun buf p st r h => inodeSlot_advance i j buf p st r h, by decide, by decide⟩
  · unfold inodeBlock INOPB; omega
  · unfold inodeOffset INOPB; rfl
  · unfold inodeOffset INOPB BLOCK_SIZE; omega
  · rw [hs]; unfold inodeBlock INOPB; omega
  · rw [hs]; unfold inodeOffset INOPB; omega
  · intro m h1 h2
    rw [hs]
    unfold inodeBlock INOPB at h1
    unfold inodeOffset INOPB at h2
    omega

/-- Witness for C11 (amended): inode 130 is slot 2 of block 4. -/
theorem inode_location_witness :
    slotIndex 4 2 = 130 ∧ inodeBlock (slotIndex 4 2) = 4 ∧ inodeOffset (slotIndex 4 2) = 128 := by
  have h := inode_location 130 4 2 (by decide) (by decide) (by decide)
  exact ⟨h.2.2.2.1, h.2.2.2.2.1, h.2.2.2.2.2.1⟩

/-! ## Further evaluations on concrete images -/

/-- C12 (evaluation at the failing input): for a partition that starts at
sector 2^23, the exact offset of block 1 is 2^32 + 4096, but the 32-bit
expression of `readBlock` gives 4096; the read succeeds there although the
image has nothing at the exact offset. -/
theorem readBlock_offset_wraps :
    farPartition.fsStart * SECTOR_SIZE + 1 * BLOCK_SIZE = 4294971392
      ∧ blockOffset farPartition.fsStart 1 = 4096
      ∧ (farPartition.disk 4294971392).isNone = true
      ∧ (readBlock 1 farPartition).map (fun r => r.2.trace) = .ok [Event.readBlock 1] := by
  decide

/-- C13 (evaluation at the failing input): for the character-special inode in
slot 1 of block 2 the test `(mode && IFMT) == IFCHR` compares 1 with 020000,
so the traversal runs: the number 3 in the first direct field is credited as
an occupied block and block 0 is read twice. -/
theorem inodeSlot_special_not_skipped :
    get4Bytes charDeviceBlock 64 &&& IFMT = IFCHR
      ∧ logicalAnd (get4Bytes charDeviceBlock 64) IFMT = 1
      ∧ (bootOnlyImage.bCounter 3).occupied = 0
      ∧ (inodeSlot 2 1 charDeviceBlock 64 bootOnlyImage).map
          (fun r => ((r.2.bCounter 3).occupied, r.2.trace))
        = .ok (1, [Event.readBlock 0, Event.readBlock 0]) := by
  decide!

/-- C14 (evaluation at the failing input): for the regular file in slot 1 of
block 2 with single-indirect pointer 5, the sweep reads block 5 and credits
its child 6, but `occupied` of block 5 itself stays 0. -/
theorem inodeSlot_indirect_block_not_credited :
    get4Bytes singleIndirectInode (64 + 56) = 5
      ∧ get4Bytes childList6 0 = 6
      ∧ (indirectImage.bCounter 5).occupied = 0
      ∧ (inodeSlot 2 1 singleIndirectInode 64 indirectImage).map
          (fun r => ((r.2.bCounter 5).occupied, (r.2.bCounter 6).occupied, r.2.trace))
        = .ok (0, 1, [Event.readBlock 0, Event.readBlock 5]) := by
  decide!

/-- C15 (evaluation at the failing input): the first-level block 5 has entry 0
out of range and entry 1 equal to 6, and block 6 lists block 7.  After the
`continue` for entry 0 the read position is not advanced, so block 6 is never
read and block 7 is never credited. -/
theorem getDoubleIndirectBlocks_stalls :
    get4Bytes doubleIndirectInode (64 + 60) = 5
      ∧ get4Bytes firstEntryOutOfRange 0 = 4294967295
      ∧ get4Bytes firstEntryOutOfRange 4 = 6
      ∧ get4Bytes childList7 0 = 7
      ∧ (getDoubleIndirectBlocks doubleIndirectInode (64 + 60) doubleIndirectImage).map
          (fun s => ((s.bCounter 7).occupied, s.trace))
        = .ok (0, [Event.readBlock 5]) := by
  decide!

/-- C16 (evaluation at the failing input): with all tallies 0 and a free-list
chain of the single in-range block 5, which is in no cached slot, the sweep
credits block 5 in `inspectFreelist` and again in `followLinkBlock`: `free` of
block 5 ends as 2, which the block pass answers with exit 12. -/
theorem inspectFreelist_head_credited_twice :
    get4Bytes superblockLink5 2028 = 5
      ∧ (oneLinkBlock.bCounter 5).free = 0
      ∧ (inspectFreelist 1 oneLinkBlock).map (fun s => ((s.bCounter 5).free, s.trace))
        = .ok (2, [Event.readBlock 5, Event.readBlock 1])
      ∧ blockVerdict ⟨2, 0⟩ = some 12 := by
  decide!

/-- C17 (evaluation at the failing input): the root directory has the direct
blocks 5 and 6; `getRootDir` walks block 5 only, so block 6 is never read as a
directory block and its entry for inode 2 is not counted. -/
theorem getRootDir_first_block_only :
    get4Bytes rootTwoBlocks 64 &&& IFMT = IFDIR
      ∧ get4Bytes rootTwoBlocks (64 + 32) = 5
      ∧ get4Bytes rootTwoBlocks (64 + 36) = 6
      ∧ get4Bytes dirEntryInode2 0 = 2
      ∧ (getRootDir 2 rootWithTwoBlocks).map (fun s => ((s.inodeCounter 2).refs, s.trace))
        = .ok (0, [Event.readBlock 2, Event.readInode 0, Event.readBlock 5,
            Event.checkDirectory 5, Event.readBlock 2]) := by
  decide!

/-- C18 (evaluation at the failing input): with `numBlocks = 8`, a
single-indirect pointer 9 and a double-indirect pointer 0, the sweep calls
`readBlock(9)` and `readBlock(0)`: neither number was compared with 0 or with
`numBlocks` before the call. -/
theorem inodeSlot_reads_unchecked_blocks :
    pastEndImage.numBlocks = 8
      ∧ get4Bytes pointerPastEnd (64 + 56) = 9
      ∧ get4Bytes pointerPastEnd (64 + 60) = 0
      ∧ (inodeSlot 2 1 pointerPastEnd 64 pastEndImage).map (fun r => r.2.trace)
        = .ok [Event.readBlock 0, Event.readBlock 9] := by
  decide!

/-! ## Termination of the free-list sweep -/

theorem freeLoop_disk (buf : Block) :
    ∀ (n p : Nat) (st : State),
      (freeLoop buf n p st).disk = st.disk ∧ (freeLoop buf n p st).fsStart = st.fsStart := by
  intro n
  induction n with
  | zero => intro p st; exact ⟨rfl, rfl⟩
  | succ n ih =>
    intro p st
    unfold freeLoop
    simp only []
    split
    · exact ih _ _
    · exact ih _ _

theorem followLinkBlock_succ (fuel link : Nat) (st : State) (buf : Block)
    (hread : st.disk (blockOffset st.fsStart link) = some buf) :
    followLinkBlock (fuel + 1) link st =
      if get4Bytes buf 4 > 0 then
        followLinkBlock fuel (get4Bytes buf 4)
          (freeLoop buf (NICFREE - 1) 8
            (incFree link { st with trace := Event.readBlock link :: st.trace }))
      else .ok (freeLoop buf (NICFREE - 1) 8
            (incFree link { st with trace := Event.readBlock link :: st.trace })) := by
  conv_lhs => unfold followLinkBlock
  rw [readBlock_some link st buf hread]
  rfl

theorem followLinkBlock_selfLinked :
    ∀ (fuel : Nat) (st : State), st.disk = selfLinkedImage.disk → st.fsStart = 0 →
      followLinkBlock fuel 5 st = .fuel := by
  intro fuel
  induction fuel with
  | zero => intro st _ _; rfl
  | succ f ih =>
    intro st hd hf
    have hread : st.disk (blockOffset st.fsStart 5) = some selfLinkBlock := by
      rw [hd, hf]; rfl
    rw [followLinkBlock_succ f 5 st selfLinkBlock hread]
    have h5 : get4Bytes selfLinkBlock 4 = 5 := by decide
    rw [h5, if_pos (by decide)]
    apply ih
    · rw [(freeLoop_disk _ _ _ _).1]; exact hd
    · rw [(freeLoop_disk _ _ _ _).2]; exact hf

theorem incFree_free_bounds (a : Nat) (st : State) (b : Nat) :
    (st.bCounter b).free ≤ ((incFree a st).bCounter b).free
      ∧ ((incFree a st).bCounter b).free ≤ (st.bCounter b).free + 1 := by
  unfold incFree
  by_cases h : b = a <;> simp [h]

theorem freeLoop_free_bounds (buf : Block) :
    ∀ (n p : Nat) (st : State) (b : Nat),
      (st.bCounter b).free ≤ ((freeLoop buf n p st).bCounter b).free
        ∧ ((freeLoop buf n p st).bCounter b).free ≤ (st.bCounter b).free + n := by
  intro n
  induction n with
  | zero => intro p st b; unfold freeLoop; simp
  | succ n ih =>
    intro p st b
    unfold freeLoop
    simp only []
    split
    · have h1 := incFree_free_bounds (get4Bytes buf p) st b
      have h2 := ih (p + 4) (incFree (get4Bytes buf p) st) b
      push_cast
      omega
    · have h2 := ih (p + 4) st b
      push_cast
      omega

theorem freeLoop_incFree_bounds (buf : Block) (a : Nat) (st : State) (e : Event) (b : Nat) :
    (st.bCounter b).free
        ≤ ((freeLoop buf (NICFREE - 1) 8
            (incFree a { st with trace := e :: st.trace })).bCounter b).free
      ∧ ((freeLoop buf (NICFREE - 1) 8
            (incFree a { st with trace := e :: st.trace })).bCounter b).free
        ≤ (st.bCounter b).free + 500 := by
  have h1 := incFree_free_bounds a { st with trace := e :: st.trace } b
  have h2 := freeLoop_free_bounds buf (NICFREE - 1) 8
    (incFree a { st with trace := e :: st.trace }) b
  have e1 : ((NICFREE - 1 : Nat) : Int) = 499 := by decide
  rw [e1] at h2
  have e2 : (({ st with trace := e :: st.trace } : State).bCounter b).free
      = (st.bCounter b).free := rfl
  rw [e2] at h1
  omega

theorem followLinkBlock_returns_inRange (disk : Nat → Option Block) (fsStart numBlocks : Nat) :
    ∀ (k link : Nat) (st : State), st.disk = disk → st.fsStart = fsStart →
      chainEndsInRange disk fsStart numBlocks k link = true →
      ∃ st2, (∀ depth, k ≤ depth → followLinkBlock depth link st = .ok st2)
        ∧ ∀ b, (st.bCounter b).free ≤ (st2.bCounter b).free
            ∧ (st2.bCounter b).free ≤ (st.bCounter b).free + 500 * k := by
  intro k
  induction k with
  | zero => intro link st _ _ h; simp [chainEndsInRange] at h
  | succ k ih =>
    intro link st hd hf h
    unfold chainEndsInRange at h
    cases hb : disk (blockOffset fsStart link) with
    | none => rw [hb] at h; simp at h
    | some buf =>
      rw [hb] at h
      simp only [Bool.and_eq_true, decide_eq_true_eq, Bool.or_eq_true, beq_iff_eq] at h
      have hread : st.disk (blockOffset st.fsStart link) = some buf := by
        rw [hd, hf]; exact hb
      by_cases h0 : get4Bytes buf 4 = 0
      · refine ⟨freeLoop buf (NICFREE - 1) 8
            (incFree link { st with trace := Event.readBlock link :: st.trace }), ?_, ?_⟩
        · intro depth hk
          obtain ⟨f, rfl⟩ : ∃ f, depth = f + 1 := ⟨depth - 1, by omega⟩
          rw [followLinkBlock_succ f link st buf hread, if_neg (by omega)]
        · intro b
          have := freeLoop_incFree_bounds buf link st (Event.readBlock link) b
          push_cast
          omega
      · have hc : chainEndsInRange disk fsStart numBlocks k (get4Bytes buf 4) = true := by
          rcases h.2 with h | h
          · exact absurd h h0
          · exact h
        obtain ⟨st2, hst2, hbd⟩ := ih (get4Bytes buf 4)
          (freeLoop buf (NICFREE - 1) 8
            (incFree link { st with trace := Event.readBlock link :: st.trace }))
          (by rw [(freeLoop_disk _ _ _ _).1]; exact hd)
          (by rw [(freeLoop_disk _ _ _ _).2]; exact hf) hc
        refine ⟨st2, ?_, ?_⟩
        · intro depth hk
          obtain ⟨f, rfl⟩ : ∃ f, depth = f + 1 := ⟨depth - 1, by omega⟩
          rw [followLinkBlock_succ f link st buf hread, if_pos (by omega)]
          exact hst2 f (by omega)
        · intro b
          have h1 := freeLoop_incFree_bounds buf link st (Event.readBlock link) b
          have h2 := hbd b
          push_cast
          omega

theorem followLinkBlock_ok_chainEnds :
    ∀ (depth link : Nat) (st st2 : State), followLinkBlock depth link st = .ok st2 →
      chainEnds st.disk st.fsStart depth link = true := by
  intro depth
  induction depth with
  | zero => intro link st st2 h; cases h
  | succ f ih =>
    intro link st st2 h
    unfold chainEnds
    cases hb : st.disk (blockOffset st.fsStart link) with
    | none =>
      unfold followLinkBlock at h
      rw [readBlock_none link st hb] at h
      simp [Res.bind] at h
    | some buf =>
      rw [followLinkBlock_succ f link st buf hb] at h
      simp only [Bool.or_eq_true, beq_iff_eq]
      by_cases h0 : get4Bytes buf 4 = 0
      · exact Or.inl h0
      · right
        rw [if_pos (by omega)] at h
        have := ih _ _ _ h
        rw [(freeLoop_disk _ _ _ _).1, (freeLoop_disk _ _ _ _).2] at this
        exact this

/-- C19 as stated fails: in `selfLinkedImage` every position is readable and
the link word of the head block 5 names block 5; `inspectFreelist` returns for
no amount of fuel, so the block cross-check is never reached. -/
theorem inspectFreelist_selfLink_counterexample :
    (∀ off, (selfLinkedImage.disk off).isSome = true)
      ∧ get4Bytes superblockLink5 2028 = 5
      ∧ get4Bytes selfLinkBlock 4 = 5
      ∧ ¬ ∃ fuel, inspectFreelist fuel selfLinkedImage ≠ .fuel := by
  refine ⟨?_, by decide, by decide, ?_⟩
  · intro off
    unfold selfLinkedImage
    simp only []
    split <;> rfl
  · rintro ⟨fuel, h⟩
    apply h
    unfold inspectFreelist
    have hread : selfLinkedImage.disk (blockOffset selfLinkedImage.fsStart 1)
        = some superblockLink5 := rfl
    rw [readBlock_some 1 selfLinkedImage superblockLink5 hread]
    simp only [Res.bind]
    have h5 : get4Bytes superblockLink5 (24 + 500 * 4 + 4) = 5 := by decide
    rw [h5, if_pos (by decide)]
    apply followLinkBlock_selfLinked
    · rw [(freeLoop_disk _ _ _ _).1]; rfl
    · rw [(freeLoop_disk _ _ _ _).2]; rfl

/-- C19 (amended): let the superblock be readable and `sb` its content, with
head link `get4Bytes sb 2028`.  If the head link is below `numBlocks`, the link
chain is empty or stays below `numBlocks` and reaches a link word 0 within `k`
readable link blocks, and the `free` counters leave room for `500 * (k + 1)`
credits in the range of `int`, then the sweep returns at every nesting depth
from `k` on (`k` nested `followLinkBlock` frames), always with the same state,
in which no `free` counter fell or grew by more than `500 * (k + 1)`.
Whenever the sweep returns at nesting depth `depth`, the chain is empty or has
reached a link word 0 within `depth` blocks: on a chain that never reaches 0,
such as a cycle, it does not return. -/
theorem inspectFreelist_returns (st : State) (sb : Block)
    (hsb : st.disk (blockOffset st.fsStart 1) = some sb) :
    (∀ k, get4Bytes sb 2028 < st.numBlocks →
        (get4Bytes sb 2028 = 0
          ∨ chainEndsInRange st.disk st.fsStart st.numBlocks k (get4Bytes sb 2028) = true) →
        (∀ b, -(2 ^ 31) ≤ (st.bCounter b).free
          ∧ (st.bCounter b).free + 500 * (k + 1) < 2 ^ 31) →
        ∃ st2, (∀ depth, k ≤ depth → inspectFreelist depth st = .ok st2)
          ∧ ∀ b, (st.bCounter b).free ≤ (st2.bCounter b).free
              ∧ (st2.bCounter b).free ≤ (st.bCounter b).free + 500 * (k + 1))
      ∧ (∀ depth st2, inspectFreelist depth st = .ok st2 →
          get4Bytes sb 2028 = 0
            ∨ chainEnds st.disk st.fsStart depth (get4Bytes sb 2028) = true) := by
  have e : (24 + 500 * 4 + 4 : Nat) = 2028 := by decide
  have hstep : ∀ depth, inspectFreelist depth st =
      if get4Bytes sb 2028 > 0 then
        followLinkBlock depth (get4Bytes sb 2028)
          (freeLoop sb (NICFREE - 1) 2032
            (incFree (get4Bytes sb 2028) { st with trace := Event.readBlock 1 :: st.trace }))
      else .ok (freeLoop sb (NICFREE - 1) 2032
            (incFree (get4Bytes sb 2028) { st with trace := Event.readBlock 1 :: st.trace })) := by
    intro depth
    unfold inspectFreelist
    rw [readBlock_some 1 st sb hsb]
    simp only [Res.bind, e]
  have hbd : ∀ b, (st.bCounter b).free
        ≤ ((freeLoop sb (NICFREE - 1) 2032
            (incFree (get4Bytes sb 2028)
              { st with trace := Event.readBlock 1 :: st.trace })).bCounter b).free
      ∧ ((freeLoop sb (NICFREE - 1) 2032
            (incFree (get4Bytes sb 2028)
              { st with trace := Event.readBlock 1 :: st.trace })).bCounter b).free
        ≤ (st.bCounter b).free + 500 := by
    intro b
    have h1 := incFree_free_bounds (get4Bytes sb 2028)
      { st with trace := Event.readBlock 1 :: st.trace } b
    have h2 := freeLoop_free_bounds sb (NICFREE - 1) 2032
      (incFree (get4Bytes sb 2028) { st with trace := Event.readBlock 1 :: st.trace }) b
    have e1 : ((NICFREE - 1 : Nat) : Int) = 499 := by decide
    rw [e1] at h2
    have e2 : (({ st with trace := Event.readBlock 1 :: st.trace } : State).bCounter b).free
        = (st.bCounter b).free := rfl
    rw [e2] at h1
    omega
  constructor
  · intro k _ hchain _
    by_cases h0 : get4Bytes sb 2028 = 0
    · refine ⟨_, fun depth _ => by rw [hstep depth, if_neg (by omega)], ?_⟩
      intro b
      have := hbd b
      omega
    · have hc : chainEndsInRange st.disk st.fsStart st.numBlocks k (get4Bytes sb 2028)
          = true := by
        rcases hchain with h | h
        · exact absurd h h0
        · exact h
      obtain ⟨st2, hst2, hb2⟩ := followLinkBlock_returns_inRange st.disk st.fsStart st.numBlocks
        k (get4Bytes sb 2028)
        (freeLoop sb (NICFREE - 1) 2032
          (incFree (get4Bytes sb 2028) { st with trace := Event.readBlock 1 :: st.trace }))
        (by rw [(freeLoop_disk _ _ _ _).1]; rfl)
        (by rw [(freeLoop_disk _ _ _ _).2]; rfl) hc
      refine ⟨st2, fun depth hk => by rw [hstep depth, if_pos (by omega)]; exact hst2 depth hk,
        ?_⟩
      intro b
      have h1 := hbd b
      have h2 := hb2 b
      omega
  · intro depth st2 h
    by_cases h0 : get4Bytes sb 2028 = 0
    · exact Or.inl h0
    · right
      rw [hstep depth, if_pos (by omega)] at h
      have := followLinkBlock_ok_chainEnds _ _ _ _ h
      rw [(freeLoop_disk _ _ _ _).1, (freeLoop_disk _ _ _ _).2] at this
      exact this

/-- Witness for C19 (amended): a chain of the single in-range link block 5. -/
theorem inspectFreelist_returns_witness :
    ∃ st2, (∀ depth, 1 ≤ depth → inspectFreelist depth oneLinkBlock = .ok st2)
      ∧ ∀ b, (oneLinkBlock.bCounter b).free ≤ (st2.bCounter b).free
          ∧ (st2.bCounter b).free ≤ (oneLinkBlock.bCounter b).free + 500 * ((1 : Nat) + 1) :=
  (inspectFreelist_returns oneLinkBlock superblockLink5 rfl).1 1 (by decide)
    (Or.inr (by decide))
    (fun b => by
      show (-(2 ^ 31) ≤ (0 : Int) ∧ (0 : Int) + 500 * ((1 : Nat) + 1) < 2 ^ 31)
      decide)

/-! ## Termination of the directory walk -/

end FsCheck
